import Mathlib

/-!
Shallow embedding of the chatl `Augment` class (javascript/src/augment.js).

JavaScript objects used as maps are embedded as insertion-ordered
association lists (`List (String × α)`): inserting an existing key keeps
its position and replaces its value; inserting a new key appends it at
the end, matching JavaScript object-literal semantics.  The helper
combinators from `fp.js` and `utils.js` are not part of the given source
tree; their behaviour is modelled from the specification of the consumed
collaborator contracts (`isSynonymPart`, `enumerateCombinations`) and
from standard JavaScript semantics (`fp.append` concatenates onto arrays
and merges into objects, `fp.reduce` is a left fold, `fp.clone` is a
deep copy, which for our immutable values is the identity).
-/

namespace Chatl

/-- Sentence part: the tagged union over text parts and synonym
placeholders, as produced by the chatl parser.  A synonym part carries
the referenced entity name in its `value` field and an `optional`
flag. -/
inductive Part where
  | text (value : String)
  | synonym (value : String) (optional : Bool)
deriving DecidableEq, Repr

/-- Generic access to the `value` field of a part object. -/
def Part.val : Part → String
  | Part.text v => v
  | Part.synonym v _ => v

/-- Clone a part and overwrite its `value` field, keeping its type tag
(the clone-then-mutate pattern of the whitespace pass). -/
def Part.withVal : Part → String → Part
  | Part.text _, v => Part.text v
  | Part.synonym _ opt, v => Part.synonym v opt

/-- Modelled from the spec: the collaborator `utils.isSynonym`
distinguishes SynonymPart from TextPart. -/
def isSynonym : Part → Bool
  | Part.text _ => false
  | Part.synonym _ _ => true

/-- Lookup in a JavaScript object embedded as an ordered association
list (`obj[k]`, `undefined` becoming `none`). -/
def objGet (k : String) : List (String × α) → Option α
  | [] => none
  | (k', v) :: rest => if k' = k then some v else objGet k rest

/-- Insertion into a JavaScript object embedded as an ordered
association list: an existing key keeps its position and gets the new
value, a new key is appended at the end. -/
def objInsert (k : String) (v : α) : List (String × α) → List (String × α)
  | [] => [(k, v)]
  | (k', v') :: rest =>
      if k' = k then (k, v) :: rest else (k', v') :: objInsert k v rest

/-- Drop leading whitespace characters from a character list. -/
def dropWhitespace : List Char → List Char
  | [] => []
  | c :: cs => if c.isWhitespace then dropWhitespace cs else c :: cs

/-- JavaScript `String.prototype.trimLeft` (restricted to the ASCII
whitespace the data model can contain). -/
def jsTrimLeft (s : String) : String := String.mk (dropWhitespace s.data)

/-- JavaScript `String.prototype.trimRight` (restricted to the ASCII
whitespace the data model can contain). -/
def jsTrimRight (s : String) : String :=
  String.mk (dropWhitespace s.data.reverse).reverse

/-- The test `value[0] === ' '` of the whitespace pass: true exactly
when the first character of the string is the literal space character
(false on the empty string, whose `value[0]` is `undefined`). -/
def startsWithSpace (s : String) : Bool :=
  match s.data with
  | [] => false
  | c :: _ => c = ' '

/-- Modelled from the spec: the collaborator `utils.permutate`
(`enumerateCombinations`) computes the cartesian product over the
ordered list of domains, first-declared domain varying slowest and the
last domain cycling fastest. -/
def permutate : List (List String) → List (List String)
  | [] => [[]]
  | d :: ds => d.flatMap (fun v => (permutate ds).map (fun t => v :: t))

/-- One record of a raw synonym definition (`{ value: string }`). -/
structure SynonymRecord where
  value : String
deriving DecidableEq, Repr

/-- Raw synonym definition for one entity (`{ data: [records] }`). -/
structure SynonymDef where
  data : List SynonymRecord
deriving DecidableEq, Repr

/-- Modelled from the spec: `EntityValueProvider` is an externally owned
collaborator, constructed once per entity with the raw entity definition
(opaque to this core) and an injected synonym table. -/
structure EntityValueProvider where
  entityDef : String
  synonyms : List (String × List String)
deriving DecidableEq, Repr

/-- An intent: an ordered list of sentences in its `data` field plus
arbitrary pass-through fields, embedded as an opaque association
list. -/
structure Intent where
  data : List (List Part)
  rest : List (String × String)
deriving DecidableEq, Repr

/-- Chatl parsed data as consumed by the `Augment` constructor. -/
structure ParsedData where
  intents : List (String × Intent)
  entities : List (String × String)
  synonyms : List (String × SynonymDef)
deriving DecidableEq, Repr

/-- The state an `Augment` instance holds after construction. -/
structure Augment where
  intents : List (String × Intent)
  synonymsValues : List (String × List String)
  entitiesValues : List (String × EntityValueProvider)
deriving DecidableEq, Repr

/-- The `Augment` constructor: flattens the raw synonym map to the
synonym-value table and instantiates one entity value provider per
entity, injecting the synonym table only when the flag is set. -/
def mkAugment (parsedData : ParsedData) (useSynonymsInProviders : Bool) : Augment :=
  let synonymsValues :=
    parsedData.synonyms.map (fun kv => (kv.1, kv.2.data.map (fun r => r.value)))
  { intents := parsedData.intents
    synonymsValues := synonymsValues
    entitiesValues := parsedData.entities.map (fun kv =>
      (kv.1, { entityDef := kv.2
               synonyms := if useSynonymsInProviders then synonymsValues else [] })) }

/-- `Augment.getEntity`: look the name up in the provider table and
throw when the lookup comes back falsy. -/
def getEntity (a : Augment) (name : String) : Except String EntityValueProvider :=
  match objGet name a.entitiesValues with
  | some provider => Except.ok provider
  | none => Except.error ("Could not find an entity with the name: " ++ name)

/-- `Augment.getSynonyms`: the synonym-value table entry for the entity,
defaulting to the empty list. -/
def getSynonyms (a : Augment) (entity : String) : List String :=
  (objGet entity a.synonymsValues).getD []

/-- The value domain built for one synonym part: an empty-string entry
first when the part is optional, then the configured synonym values. -/
def domainOf (a : Augment) (c : Part) : List String :=
  match c with
  | Part.synonym v opt => (if opt then [""] else []) ++ getSynonyms a v
  | Part.text _ => []

/-- The `synonymsData` object of `getIntents`: a fold over the sentence
synonym parts inserting each domain under the entity name given by the
`value` field of the part. -/
def buildDomains (a : Augment) (syns : List Part) : List (String × List String) :=
  syns.foldl (fun p c => objInsert c.val (domainOf a c) p) []

/-- One step of the substitution fold: a non-synonym part is cloned
through; a synonym part consumes the next permutation value (the cursor
always advances) and becomes a text part when that value is truthy, or
is dropped when it is the empty string or `undefined`. -/
def substituteStep (perm : List String) (st : List Part × Nat) (c : Part) :
    List Part × Nat :=
  if isSynonym c then
    match perm.get? st.2 with
    | some v => (if v = "" then st.1 else st.1 ++ [Part.text v], st.2 + 1)
    | none => (st.1, st.2 + 1)
  else
    (st.1 ++ [c], st.2)

/-- Walk the original part sequence with a cursor into the permutation
tuple, producing the candidate part list for that tuple. -/
def substitute (sentence : List Part) (perm : List String) : List Part :=
  (sentence.foldl (substituteStep perm) ([], 0)).1

/-- One step of the whitespace-normalization fold at index `i`: trim the
left of the first part, trim the right of the last part and of any part
whose successor starts with a literal space, and drop the part when its
value has become empty. -/
def stripStep (parts : List Part) (f : List Part) (i : Nat) : List Part :=
  let part := parts.getD i (Part.text "")
  let v1 := if i = 0 then jsTrimLeft part.val else part.val
  let v2 :=
    if i = parts.length - 1 ∨ startsWithSpace ((parts.getD (i + 1) (Part.text "")).val)
    then jsTrimRight v1 else v1
  if v2 = "" then f else f ++ [part.withVal v2]

/-- The whitespace-normalization pass over a candidate part list. -/
def stripParts (parts : List Part) : List Part :=
  (List.range parts.length).foldl (stripStep parts) []

/-- Expansion of one sentence, as performed inside the `data` fold of
`getIntents`: return the sentence unchanged when it holds no synonym
part, otherwise map substitution and normalization over every
permutation of the domain table. -/
def expandSentence (a : Augment) (sentence : List Part) : List (List Part) :=
  let sentenceSynonyms := sentence.filter (fun p => isSynonym p)
  if sentenceSynonyms.length = 0 then
    [sentence]
  else
    let synonymsData := buildDomains a sentenceSynonyms
    (permutate (synonymsData.map (fun kv => kv.2))).map
      (fun perm => stripParts (substitute sentence perm))

/-- `processIntentData`: replace the `data` field of an intent with the
concatenation of every sentence expansion, all other fields passing
through the merge unchanged. -/
def processIntent (a : Augment) (intent : Intent) : Intent :=
  { intent with
    data := intent.data.foldl (fun acc sentence => acc ++ expandSentence a sentence) [] }

/-- `Augment.getIntents`: process every intent of the instance. -/
def getIntents (a : Augment) : List (String × Intent) :=
  a.intents.map (fun kv => (kv.1, processIntent a kv.2))

/-- Concatenated text rendering of a part list, used to state the
expected final texts of the examples. -/
def renderParts (parts : List Part) : String :=
  parts.foldl (fun s p => s ++ p.val) ""

/-- The sentence of the concrete greeting scenario. -/
def greetSentence : List Part :=
  [Part.text "Hello ", Part.synonym "name" true, Part.text " there"]

/-- The parsed data of the concrete greeting scenario: one intent with
one sentence, entity `name` with synonym values `Alice` and `Bob`. -/
def greetData : ParsedData :=
  { intents := [("greet", { data := [greetSentence], rest := [("k", "v")] })]
    entities := []
    synonyms := [("name", { data := [{ value := "Alice" }, { value := "Bob" }] })] }

/-- The augment instance of the concrete greeting scenario. -/
def aGreet : Augment := mkAugment greetData false

/-- An augment instance whose entity `name` has synonym values `A` and
`B`. -/
def aAB : Augment :=
  mkAugment
    { intents := []
      entities := []
      synonyms := [("name", { data := [{ value := "A" }, { value := "B" }] })] }
    false

/-- An augment instance with no synonym values configured at all. -/
def aNone : Augment :=
  mkAugment { intents := [], entities := [], synonyms := [] } false

/-- An augment instance whose entity `e` has the synonym values `""` and
`x`, the first being the empty string. -/
def aEmptyVal : Augment :=
  mkAugment
    { intents := []
      entities := []
      synonyms := [("e", { data := [{ value := "" }, { value := "x" }] })] }
    false

/-- An augment instance with one entity `city` in the provider table. -/
def aEnt : Augment :=
  mkAugment { intents := [("i", { data := [], rest := [] })], entities := [("city", "def")], synonyms := [] } false

/-- A sentence holding two required synonym occurrences of the same
entity around a text part. -/
def twoOccSentence (e t : String) : List Part :=
  [Part.synonym e false, Part.text t, Part.synonym e false]

/-- A sentence holding a required and then an optional synonym
occurrence of the same entity `e`. -/
def collidingSentence : List Part :=
  [Part.text "hi ", Part.synonym "e" false, Part.synonym "e" true]

/-- Specification form of the substitution walk, written as structural
recursion with an explicit cursor: each synonym occurrence consumes the
tuple value at the current cursor position, whatever entity name it
references, the cursor advancing by one per synonym occurrence; a
truthy value becomes a text part, an empty or absent value drops the
occurrence. The refinement theorem for claim C2 compares `substitute`,
translated from the source fold, against this function. -/
def positionalSubstitute (perm : List String) : Nat → List Part → List Part
  | _, [] => []
  | idx, c :: cs =>
      if isSynonym c then
        (match perm.get? idx with
          | some v => if v = "" then [] else [Part.text v]
          | none => []) ++ positionalSubstitute perm (idx + 1) cs
      else
        c :: positionalSubstitute perm idx cs

/-- An augment instance whose entity `A` has the single value `a1` and
whose entity `B` has the single value `b1`. -/
def aMixed : Augment :=
  mkAugment
    { intents := []
      entities := []
      synonyms := [("A", { data := [{ value := "a1" }] }),
                   ("B", { data := [{ value := "b1" }] })] }
    false

/-- A sentence with two required occurrences of entity `A` followed by a
text part and a required occurrence of entity `B`. -/
def mixedSentence : List Part :=
  [Part.synonym "A" false, Part.synonym "A" false, Part.text "-",
   Part.synonym "B" false]

theorem permutate_singleton (d : List String) :
    permutate [d] = d.map (fun v => [v]) := by
  induction d with
  | nil => rfl
  | cons v vs ih =>
      simp [permutate] at ih ⊢
      exact ih

theorem sum_map_constant {α : Type} (l : List α) (c : ℕ) :
    (l.map (fun _ => c)).sum = l.length * c := by
  induction l with
  | nil => simp
  | cons x xs ih =>
      simp [ih]
      ring

theorem length_permutate (ds : List (List String)) :
    (permutate ds).length = (ds.map List.length).prod := by
  induction ds with
  | nil => rfl
  | cons d ds ih =>
      simp only [permutate, List.length_flatMap, Function.comp_def, List.length_map,
        ih, List.map_cons, List.prod_cons]
      rw [sum_map_constant]

theorem permutate_eq_nil_of_mem (ds : List (List String)) (h : [] ∈ ds) :
    permutate ds = [] := by
  induction ds with
  | nil => cases h
  | cons d ds ih =>
      rcases List.mem_cons.mp h with h | h
      · subst h; rfl
      · simp [permutate, ih h]

theorem foldl_append_eq_append_join {α β : Type} (f : α → List β) (l : List α)
    (init : List β) :
    l.foldl (fun acc s => acc ++ f s) init = init ++ (l.map f).flatten := by
  induction l generalizing init with
  | nil => simp
  | cons x xs ih => simp [ih, List.append_assoc]

theorem foldl_substituteStep_texts (perm : List String) (ts : List String)
    (st : List Part × Nat) :
    (ts.map Part.text).foldl (substituteStep perm) st =
      (st.1 ++ ts.map Part.text, st.2) := by
  induction ts generalizing st with
  | nil => simp
  | cons t ts ih => simp [substituteStep, isSynonym, ih, List.append_assoc]

theorem objGet_objInsert_self {α : Type} (k : String) (v : α)
    (l : List (String × α)) : objGet k (objInsert k v l) = some v := by
  induction l with
  | nil => simp [objInsert, objGet]
  | cons hd tl ih =>
      rcases hd with ⟨k', v'⟩
      by_cases hk : k' = k
      · simp [objInsert, objGet, hk]
      · simp [objInsert, objGet, hk, ih]

theorem objGet_objInsert_of_ne {α : Type} (k k' : String) (v : α)
    (l : List (String × α)) (h : k' ≠ k) :
    objGet k (objInsert k' v l) = objGet k l := by
  induction l with
  | nil => simp [objInsert, objGet, h]
  | cons hd tl ih =>
      rcases hd with ⟨k'', v''⟩
      by_cases hk : k'' = k'
      · simp [objInsert, objGet, hk, h]
      · by_cases hk2 : k'' = k <;>
          simp [objInsert, objGet, hk, hk2, ih, Ne.symm h]

theorem objGet_buildDomains (a : Augment) (e : String) (syns : List Part) :
    objGet e (buildDomains a syns) =
      ((syns.filter (fun p => p.val = e)).getLast?).map (fun p => domainOf a p) := by
  induction syns using List.reverseRecOn with
  | nil => rfl
  | append_singleton cs c ih =>
      simp only [buildDomains, List.foldl_append, List.foldl_cons, List.foldl_nil] at ih ⊢
      by_cases hc : c.val = e
      · rw [hc, objGet_objInsert_self]
        simp [List.filter_append, hc, List.getLast?_concat]
      · rw [objGet_objInsert_of_ne _ _ _ _ hc, ih]
        simp [List.filter_append, hc]

theorem foldl_substituteStep_spec (perm : List String) (s : List Part) :
    ∀ st : List Part × Nat,
      s.foldl (substituteStep perm) st =
        (st.1 ++ positionalSubstitute perm st.2 s,
          st.2 + (s.filter (fun p => isSynonym p)).length) := by
  induction s with
  | nil => intro st; simp [positionalSubstitute]
  | cons c cs ih =>
      intro st
      cases c with
      | text v =>
          simp [substituteStep, isSynonym, positionalSubstitute, ih,
            List.append_assoc]
      | synonym nm opt =>
          rw [List.foldl_cons, ih]
          cases hg : perm[st.2]? with
          | none =>
              simp [substituteStep, isSynonym, hg, positionalSubstitute]
              omega
          | some v =>
              by_cases hv : v = "" <;>
                simp [substituteStep, isSynonym, hg, hv, positionalSubstitute,
                  List.append_assoc] <;>
                omega

/-- Claim C1, counterexample: in the concrete greeting scenario the
three variants are not produced in the claimed order with the
empty-synonym variant last. -/
theorem c1_greet_order_counterexample :
    (objGet "greet" (getIntents aGreet)).map (fun i => i.data.map renderParts) ≠
      some ["Hello Alice there", "Hello Bob there", "Hello there"] := by
  decide

/-- Claim C1, amended: in the concrete greeting scenario, `getIntents`
returns for `greet` exactly three sentences whose concatenated texts are
`Hello there`, `Hello Alice there`, `Hello Bob there`, in that order:
the optional empty-string entry heads its domain, so the omitted variant
comes first. -/
theorem c1_greet_order_amended :
    (objGet "greet" (getIntents aGreet)).map (fun i => i.data.map renderParts) =
      some ["Hello there", "Hello Alice there", "Hello Bob there"] := by
  decide

/-- Claim C2, counterexample: with entity `name` holding the two values
`A` and `B`, a sentence with two required occurrences of `name` yields
only 2 variants, not the 4 independent combinations of two size-2
domains, and the produced texts show the second occurrence dropped. -/
theorem c2_shared_slot_counterexample :
    (expandSentence aAB (twoOccSentence "name" " x ")).length = 2 ∧
    ((twoOccSentence "name" " x ").filter (fun p => isSynonym p)).map
        (fun p => (domainOf aAB p).length) = [2, 2] ∧
    (expandSentence aAB (twoOccSentence "name" " x ")).map renderParts =
      ["A x", "B x"] := by
  decide

/-- Claim C2, amended: domains are keyed by entity name, not by
occurrence position.  First, the constructed domain table holds, for
every entity name, exactly the domain computed from the last part in
the sentence carrying that name, so repeated references to one entity
share a single slot and the tuple has one value per distinct name.
Second, substitution consumes tuple values purely positionally: the
i-th synonym occurrence of the sentence consumes the i-th tuple value
whatever entity it references, and occurrences whose cursor reaches the
tuple length are dropped.  Repeated references are therefore not
permuted independently; with mixed entities a value can even land at an
occurrence of a different entity, as the sentence with occurrences
`A`, `A`, `B` shows: it renders `a1b1-`, the second `A` occurrence
consuming the `B` value and the `B` occurrence being dropped. -/
theorem c2_shared_slot_amended :
    (∀ (a : Augment) (syns : List Part) (e : String),
        objGet e (buildDomains a syns) =
          ((syns.filter (fun p => p.val = e)).getLast?).map
            (fun p => domainOf a p)) ∧
    (∀ (s : List Part) (perm : List String),
        substitute s perm = positionalSubstitute perm 0 s) ∧
    (expandSentence aMixed mixedSentence).map renderParts = ["a1b1-"] := by
  refine ⟨fun a syns e => objGet_buildDomains a e syns, fun s perm => ?_, by decide⟩
  rw [substitute, foldl_substituteStep_spec]
  simp

/-- Claim C3, counterexample: for the two-occurrence sentence over
entity `name` with two values, the occurrence-wise domain sizes are 2
and 2 with product 4, yet expansion produces only 2 variants. -/
theorem c3_product_counterexample :
    (((twoOccSentence "name" " x ").filter (fun p => isSynonym p)).map
        (fun p => (domainOf aAB p).length)).prod = 4 ∧
    (expandSentence aAB (twoOccSentence "name" " x ")).length = 2 := by
  decide

/-- Claim C3, amended: the variant count of a sentence equals the
product of the domain sizes over the constructed domain table, which
holds one slot per distinct entity name referenced by the synonym parts
(so it equals the occurrence-wise product exactly when no entity name
repeats); a sentence with no synonym part has the empty table, whose
product is 1. -/
theorem c3_variant_count_amended (a : Augment) (s : List Part) :
    (expandSentence a s).length =
      ((buildDomains a (s.filter (fun p => isSynonym p))).map
        (fun kv => kv.2.length)).prod := by
  by_cases h : (s.filter (fun p => isSynonym p)).length = 0
  · rw [List.length_eq_zero] at h
    simp [expandSentence, h, buildDomains]
  · simp [expandSentence, h, length_permutate, List.map_map, Function.comp_def]

/-- Claim C4: on the part list consisting of `Hello `, an optional
synonym for `greeting` and ` world`, the variant whose optional synonym
resolves to the empty string normalizes to a part list whose
concatenated text is exactly `Hello world` with a single interior space
and no leading, trailing or doubled whitespace. -/
theorem c4_whitespace_law :
    stripParts (substitute
        [Part.text "Hello ", Part.synonym "greeting" true, Part.text " world"] [""]) =
      [Part.text "Hello", Part.text " world"] ∧
    renderParts (stripParts (substitute
        [Part.text "Hello ", Part.synonym "greeting" true, Part.text " world"] [""])) =
      "Hello world" := by
  decide

/-- Claim C5: a sentence with no synonym part expands to exactly the
one-element list holding the very same sentence, unchanged. -/
theorem c5_no_synonym_identity (a : Augment) (s : List Part)
    (h : s.filter (fun p => isSynonym p) = []) :
    expandSentence a s = [s] := by
  simp [expandSentence, h]

/-- Claim C5, witness: the hypothesis and the conclusion at the concrete
sentence consisting of one text part. -/
theorem c5_no_synonym_identity_witness :
    ([Part.text "hi"].filter (fun p => isSynonym p) = []) ∧
      expandSentence aNone [Part.text "hi"] = [[Part.text "hi"]] :=
  ⟨by decide, c5_no_synonym_identity aNone [Part.text "hi"] (by decide)⟩

/-- Claim C7: `getEntity` fails on a name absent from the provider table
with exactly the message `Could not find an entity with the name:` and
the name, and succeeds on a present name with the provider instance the
table holds, which repeated calls on the unchanged instance reproduce. -/
theorem c7_getEntity_lookup (a : Augment) (name : String) :
    (objGet name a.entitiesValues = none →
      getEntity a name =
        Except.error ("Could not find an entity with the name: " ++ name)) ∧
    (∀ p : EntityValueProvider, objGet name a.entitiesValues = some p →
      getEntity a name = Except.ok p) := by
  refine ⟨fun h => ?_, fun p h => ?_⟩ <;> simp [getEntity, h]

/-- Claim C7, witness: the two branches at the concrete instance holding
the single entity `city`. -/
theorem c7_getEntity_lookup_witness :
    getEntity aEnt "city" = Except.ok { entityDef := "def", synonyms := [] } ∧
    getEntity aEnt "nope" =
      Except.error ("Could not find an entity with the name: " ++ "nope") :=
  ⟨(c7_getEntity_lookup aEnt "city").2 _ (by decide),
   (c7_getEntity_lookup aEnt "nope").1 (by decide)⟩

/-- Claim C6, counterexample: the sentence `hi ` followed by a required
and then an optional occurrence of entity `e`, with `e` holding zero
configured values, contains a required synonym part over an empty entity
and still contributes one variant, because the later optional occurrence
overwrites the shared domain slot with the nonempty domain holding only
the empty string. -/
theorem c6_required_empty_counterexample :
    Part.synonym "e" false ∈ collidingSentence ∧
    getSynonyms aNone "e" = [] ∧
    (expandSentence aNone collidingSentence).map renderParts = ["hi"] := by
  decide

/-- Claim C6, amended: a sentence whose constructed domain table maps
some entity to the empty domain (which happens when the last occurrence
of that entity in the sentence is required and the entity has zero
configured values) contributes zero variants, and the computation is
total, so no error is raised. -/
theorem c6_empty_domain_amended (a : Augment) (s : List Part) (e : String)
    (h : (e, ([] : List String)) ∈
      buildDomains a (s.filter (fun p => isSynonym p))) :
    expandSentence a s = [] := by
  by_cases hlen : (s.filter (fun p => isSynonym p)).length = 0
  · exfalso
    rw [List.length_eq_zero] at hlen
    rw [hlen] at h
    simp [buildDomains] at h
  · have hmem : ([] : List String) ∈
        (buildDomains a (s.filter (fun p => isSynonym p))).map (fun kv => kv.2) :=
      List.mem_map.mpr ⟨(e, []), h, rfl⟩
    simp [expandSentence, hlen, permutate_eq_nil_of_mem _ hmem]

/-- Claim C6, witness: the hypothesis and conclusion at a sentence whose
only occurrence of entity `e` is required while `e` has zero values. -/
theorem c6_empty_domain_witness :
    (("e", ([] : List String)) ∈
      buildDomains aNone ([Part.text "hi", Part.synonym "e" false].filter
        (fun p => isSynonym p))) ∧
    expandSentence aNone [Part.text "hi", Part.synonym "e" false] = [] :=
  ⟨by decide, c6_empty_domain_amended aNone _ "e" (by decide)⟩

/-- Claim C8: `getIntents` maps every intent to an intent whose `data`
field is the concatenation, in sentence order then variant order, of the
per-sentence expansions, and whose remaining fields are exactly those of
the input intent. -/
theorem c8_data_replaced_rest_preserved (a : Augment) :
    getIntents a = a.intents.map (fun kv =>
      (kv.1,
        { data := (kv.2.data.map (fun s => expandSentence a s)).flatten
          rest := kv.2.rest })) := by
  have hstep : ∀ kv : String × Intent,
      (kv.1, processIntent a kv.2) =
        (kv.1,
          { data := (kv.2.data.map (fun s => expandSentence a s)).flatten
            rest := kv.2.rest }) := by
    intro kv
    simp [processIntent, foldl_append_eq_append_join]
  simp [getIntents, hstep]

/-- Claim C9: in the whitespace pass, a non-final part is right-trimmed
exactly when the following part begins with the literal space character:
with any other first character, a tab included, the trailing whitespace
of the preceding part survives, whereas a following part beginning with
a space triggers the trim. -/
theorem c9_space_seam_only (c : Char) (h : c ≠ ' ') :
    stripParts [Part.text "a ", Part.text (String.mk [c, 'b'])] =
      [Part.text "a ", Part.text (String.mk [c, 'b'])] ∧
    stripParts [Part.text "a ", Part.text " b"] = [Part.text "a", Part.text " b"] := by
  constructor
  · have hne : String.mk [c, 'b'] ≠ "" := by
      intro he
      have hd : [c, 'b'] = ("" : String).data := congrArg String.data he
      rw [show ("" : String).data = [] from rfl] at hd
      exact List.cons_ne_nil _ _ hd
    simp [stripParts, stripStep, List.range_succ, jsTrimLeft, jsTrimRight,
      dropWhitespace, startsWithSpace, Part.val, Part.withVal, h, hne]
  · decide

/-- Claim C9, witness: the hypothesis and the first conclusion at the
concrete following character, a tab. -/
theorem c9_space_seam_only_witness :
    ('\t' ≠ ' ') ∧
    stripParts [Part.text "a ", Part.text (String.mk ['\t', 'b'])] =
      [Part.text "a ", Part.text (String.mk ['\t', 'b'])] :=
  ⟨by decide, (c9_space_seam_only '\t' (by decide)).1⟩

/-- Claim C10: a synonym part whose consumed tuple value is the empty
string is omitted entirely from the candidate, whatever its optional
flag, no empty text part being inserted; concretely, a required synonym
over an entity whose configured values include the empty string yields a
variant with the part dropped. -/
theorem c10_empty_value_drops (pre post : List String) (e : String) (b : Bool) :
    substitute (pre.map Part.text ++ [Part.synonym e b] ++ post.map Part.text) [""] =
      pre.map Part.text ++ post.map Part.text ∧
    (expandSentence aEmptyVal [Part.text "go", Part.synonym "e" false]).map
        renderParts = ["go", "gox"] := by
  constructor
  · unfold substitute
    rw [List.foldl_append, List.foldl_append, foldl_substituteStep_texts]
    simp [substituteStep, isSynonym, foldl_substituteStep_texts]
  · decide

end Chatl
